import Mathlib

/-
Verification development for the ICS-023 chained Merkle commitment types
(x/ibc/23-commitment/types/merkle.go) and the connection handshake message
handlers (x/ibc/03-connection/handler.go).

Go strings and byte slices are modelled as lists of naturals (byte values);
Go interface values that may be nil are modelled as Option; a Go function
that can return a non-nil error or panic is modelled with the Outcome type
below. The external single-tree proof primitive (confio/ics23) is modelled
as an abstract record of functions passed to the verifier.
-/

/-- Bytes models a Go byte slice or string as a list of byte values. -/
abbrev Bytes := List Nat

/-- Outcome models the result of a Go function call: a normal return value,
a returned non-nil error value, or a runtime panic (out-of-bounds slice
index, nil pointer dereference, or an explicit panic call). -/
inductive Outcome (ε α : Type) where
  | ok (a : α)
  | error (e : ε)
  | panicked
deriving DecidableEq

/-- goIndex models Go slice indexing xs[i] with an int index: the element
when the index is in range, none for the out-of-range panic. -/
def goIndex {α : Type} (xs : List α) (i : Int) : Option α :=
  if h : 0 ≤ i ∧ i.toNat < xs.length then some (xs.get ⟨i.toNat, h.2⟩) else none

/-- ishex models net/url ishex: ASCII decimal digits and hex letters. -/
def ishex (c : Nat) : Bool :=
  (48 ≤ c && c ≤ 57) || (97 ≤ c && c ≤ 102) || (65 ≤ c && c ≤ 70)

/-- unhex models net/url unhex, mapping a hex digit byte to its value. -/
def unhex (c : Nat) : Nat :=
  if 48 ≤ c && c ≤ 57 then c - 48
  else if 97 ≤ c && c ≤ 102 then c - 97 + 10
  else if 65 ≤ c && c ≤ 70 then c - 65 + 10
  else 0

/-- pathUnescape models net/url PathUnescape on bytes: each percent byte
must be followed by two hex digits and is decoded to the denoted byte;
every other byte passes through; a malformed escape yields none, which the
caller of this model treats as the EscapeError return. -/
def pathUnescape : Bytes → Option Bytes
  | [] => some []
  | 37 :: h1 :: h2 :: rest =>
      if ishex h1 && ishex h2 then
        (pathUnescape rest).map (fun t => (unhex h1 * 16 + unhex h2) :: t)
      else none
  | 37 :: _ => none
  | c :: rest => (pathUnescape rest).map (fun t => c :: t)

/-- validPercentEncoding is the spec-side predicate: a byte string is valid
percent-encoding when every percent sign is followed by two hex digits. -/
def validPercentEncoding : Bytes → Bool
  | [] => true
  | 37 :: h1 :: h2 :: rest => ishex h1 && ishex h2 && validPercentEncoding rest
  | 37 :: _ => false
  | _ :: rest => validPercentEncoding rest

/-- percentDecode is the spec-side decoder: each percent escape becomes the
byte its two hex digits denote, every other byte passes through. -/
def percentDecode : Bytes → Bytes
  | [] => []
  | 37 :: h1 :: h2 :: rest => (unhex h1 * 16 + unhex h2) :: percentDecode rest
  | 37 :: rest => 37 :: percentDecode rest
  | c :: rest => c :: percentDecode rest

/-- hexDigitUpper maps a value below 16 to its upper-case hex digit byte. -/
def hexDigitUpper (n : Nat) : Nat := if n < 10 then 48 + n else 65 + (n - 10)

/-- isAlphaNum recognises ASCII letters and digits. -/
def isAlphaNum (c : Nat) : Bool :=
  (48 ≤ c && c ≤ 57) || (65 ≤ c && c ≤ 90) || (97 ≤ c && c ≤ 122)

/-- shouldEscapePathSegment models net/url shouldEscape for the path
segment mode: unreserved characters and most sub-delims stay, while slash,
semicolon, comma and question mark and all remaining bytes are escaped. -/
def shouldEscapePathSegment (c : Nat) : Bool :=
  if isAlphaNum c then false
  else if c == 45 || c == 95 || c == 46 || c == 126 then false
  else if c == 36 || c == 38 || c == 43 || c == 44 || c == 47 || c == 58
       || c == 59 || c == 61 || c == 63 || c == 64 then
    c == 47 || c == 59 || c == 44 || c == 63
  else true

/-- PathEscape models net/url PathEscape on bytes. -/
def PathEscape (bs : Bytes) : Bytes :=
  (bs.map (fun c =>
    if shouldEscapePathSegment c then
      [37, hexDigitUpper (c / 16), hexDigitUpper (c % 16)]
    else [c])).flatten

/-- HexUpper renders bytes in upper-case hex, two digits per byte, as the
Go format verb X does for a byte slice. -/
def HexUpper (bs : Bytes) : Bytes :=
  (bs.map (fun b => [hexDigitUpper (b / 16), hexDigitUpper (b % 16)])).flatten

/-- KeyEncoding models tendermint merkle keyEncoding: URL or Hex. -/
inductive KeyEncoding where
  | url
  | hex
deriving DecidableEq

/-- Key models tendermint merkle.Key: raw name bytes plus an encoding. -/
structure Key where
  name : Bytes
  enc : KeyEncoding
deriving DecidableEq

/-- KeyPath models tendermint merkle.KeyPath, a list of keys. -/
abbrev KeyPath := List Key

/-- KeyString renders one key as tendermint merkle.KeyPath.String does for
one element: a slash then the URL-escaped name, or slash x colon then the
upper-case hex name. -/
def KeyString (k : Key) : Bytes :=
  match k.enc with
  | .url => 47 :: PathEscape k.name
  | .hex => 47 :: 120 :: 58 :: HexUpper k.name

/-- KeyPathString models tendermint merkle.KeyPath.String: concatenation of
the rendering of each key. -/
def KeyPathString (kp : KeyPath) : Bytes := (kp.map KeyString).flatten

/-- MerklePath from merkle.go: an ordered list of key paths. -/
structure MerklePath where
  KeyPaths : List KeyPath
deriving DecidableEq

/-- NewMerklePath from merkle.go: wraps the given strings as URL-encoded
keys of a single KeyPath. -/
def NewMerklePath (keyPathStr : List Bytes) : MerklePath :=
  ⟨[keyPathStr.map (fun k => Key.mk k KeyEncoding.url)]⟩

/-- MerklePath.String from merkle.go: the first key path rendering, then a
slash and the rendering of each later key path. -/
def MerklePath.String (mp : MerklePath) : Bytes :=
  match mp.KeyPaths with
  | [] => []
  | k0 :: rest => KeyPathString k0 ++ (rest.map (fun p => 47 :: KeyPathString p)).flatten

/-- MerklePath.Pretty from merkle.go: percent-unescape the rendered path,
panicking when unescaping reports an error. -/
def MerklePath.Pretty (mp : MerklePath) : Outcome Empty Bytes :=
  match pathUnescape (MerklePath.String mp) with
  | some s => .ok s
  | none => .panicked

/-- MerklePath.IsEmpty from merkle.go: no key paths. -/
def MerklePath.IsEmpty (mp : MerklePath) : Bool := mp.KeyPaths.length == 0

/-- MerkleRoot from merkle.go: a root hash. -/
structure MerkleRoot where
  Hash : Bytes
deriving DecidableEq

/-- MerkleRoot.GetHash from merkle.go. -/
def MerkleRoot.GetHash (mr : MerkleRoot) : Bytes := mr.Hash

/-- MerkleRoot.IsEmpty from merkle.go: the hash has zero length. -/
def MerkleRoot.IsEmpty (mr : MerkleRoot) : Bool := mr.GetHash.length == 0

/-- ExistenceProof stands for an opaque ics23 ExistenceProof value; its
only use here is through the abstract Calculate function. -/
abbrev ExistenceProof := Nat

/-- ProofSpec stands for an opaque ics23 ProofSpec value, consumed only by
the abstract single-tree verifiers. -/
abbrev ProofSpec := Nat

/-- NonExistenceProof models the ics23 NonExistenceProof as consumed by
merkle.go: only its Left neighbor existence proof is used. -/
structure NonExistenceProof where
  left : ExistenceProof
deriving DecidableEq

/-- CommitmentProof models the ics23 CommitmentProof oneof: an existence
proof, a nonexistence proof, or any other variant (batch, compressed or a
nil oneof field), which fails both type assertions in merkle.go. -/
inductive CommitmentProof where
  | exist (ep : ExistenceProof)
  | nonexist (nep : NonExistenceProof)
  | otherVariant
deriving DecidableEq

/-- Ext packages the external ics23 single-tree primitive consumed by the
chained verifier: Calculate on an existence proof (none models a non-nil
error return), and the boolean membership and non-membership verifiers. -/
structure Ics23 where
  calculate : ExistenceProof → Option Bytes
  verifyMember : Option ProofSpec → Bytes → CommitmentProof → Bytes → Bytes → Bool
  verifyNonMember : Option ProofSpec → Bytes → CommitmentProof → Bytes → Bool

/-- ExPath models a value of the exported.Path interface: either the
MerklePath variant or some other implementation, of which only the
IsEmpty answer and the rendered string are relevant here. -/
inductive ExPath where
  | merkle (mp : MerklePath)
  | otherPath (empty : Bool) (str : Bytes)
deriving DecidableEq

/-- ExPath.IsEmpty dispatches IsEmpty through the path interface. -/
def ExPath.IsEmpty : ExPath → Bool
  | .merkle mp => mp.IsEmpty
  | .otherPath e _ => e

/-- ExPath.String dispatches String through the path interface. -/
def ExPath.String : ExPath → Bytes
  | .merkle mp => mp.String
  | .otherPath _ s => s

/-- CommitmentErr models ErrInvalidProof from the commitment types errors
file together with the distinct sdkerrors.Wrap messages produced in
merkle.go; every constructor denotes an error whose base is
ErrInvalidProof. -/
inductive CommitmentErr where
  | invalidProof
  | wEmptyParams
  | wNotMerklePath
  | wChainLength
  | wNotExist
  | wNotNonexist
  | wCalculate
  | wInvalidForPath
deriving DecidableEq

/-- MerkleProof from merkle.go: the chained proof, a list of sub-proof
pointers and a list of proof spec pointers (none models a nil pointer). -/
structure MerkleProof where
  Proofs : List (Option CommitmentProof)
  Specs : List (Option ProofSpec)
deriving DecidableEq

/-- isEmptyScan models the range loop of MerkleProof.IsEmpty: at each index
of Proofs the entry is tested for nil first and then Specs is indexed at
the same position, panicking when that index is out of range. -/
def isEmptyScan (specs : List (Option ProofSpec)) :
    Nat → List (Option CommitmentProof) → Outcome Empty Bool
  | _, [] => .ok false
  | i, p :: rest =>
      if p.isNone then .ok true
      else
        match goIndex specs (i : Int) with
        | none => .panicked
        | some s => if s.isNone then .ok true else isEmptyScan specs (i + 1) rest

/-- MerkleProof.IsEmpty from merkle.go: true when either list is empty,
then the positional scan for nil entries. -/
def MerkleProof.IsEmpty (proof : MerkleProof) : Outcome Empty Bool :=
  if proof.Proofs.length == 0 || proof.Specs.length == 0 then .ok true
  else isEmptyScan proof.Specs 0 proof.Proofs

/-- MerkleProof.ValidateBasic from merkle.go: ErrInvalidProof when the
proof is empty or the two lists have different lengths. -/
def MerkleProof.ValidateBasic (proof : MerkleProof) : Outcome CommitmentErr Unit :=
  match proof.IsEmpty with
  | .panicked => .panicked
  | .error e => e.elim
  | .ok b =>
      if b || !(proof.Proofs.length == proof.Specs.length) then .error .invalidProof
      else .ok ()

/-- vmLoop models the verification loop of MerkleProof.VerifyMembership:
index i over the proof list, the reverse-indexed key path as subpath, the
existence assertion, Calculate, and the membership check against the
computed subroot at inner indices and against the trusted root hash at the
last index; the subtree root becomes the value of the next iteration. -/
def vmLoop (ext : Ics23) (specs : List (Option ProofSpec)) (nProofs nPaths : Nat)
    (keyPaths : List KeyPath) (rootHash : Bytes) :
    Nat → List (Option CommitmentProof) → Bytes → Outcome CommitmentErr Unit
  | _, [], _ => .ok ()
  | i, p :: rest, value =>
      match goIndex keyPaths ((nPaths : Int) - (i : Int) - 1) with
      | none => .panicked
      | some kp =>
          match p with
          | none => .panicked
          | some cp =>
              match cp with
              | .exist ep =>
                  match ext.calculate ep with
                  | none => .error .wCalculate
                  | some subroot =>
                      if i != nProofs - 1 then
                        match goIndex specs (i : Int) with
                        | none => .panicked
                        | some spec =>
                            if ext.verifyMember spec subroot cp (KeyPathString kp) value then
                              vmLoop ext specs nProofs nPaths keyPaths rootHash (i + 1) rest subroot
                            else .error .wInvalidForPath
                      else
                        match goIndex specs (i : Int) with
                        | none => .panicked
                        | some spec =>
                            if ext.verifyMember spec rootHash cp (KeyPathString kp) value then
                              vmLoop ext specs nProofs nPaths keyPaths rootHash (i + 1) rest subroot
                            else .error .wInvalidForPath
              | _ => .error .wNotExist

/-- MerkleProof.VerifyMembership from merkle.go: the precondition chain
(ValidateBasic, nil or empty root, nil or empty path, empty value), the
MerklePath type assertion, the chain-length guard that rejects when the
proof count equals the key path count, then the loop. -/
def MerkleProof.VerifyMembership (ext : Ics23) (proof : MerkleProof)
    (root : Option MerkleRoot) (path : Option ExPath) (value : Bytes) :
    Outcome CommitmentErr Unit :=
  match proof.ValidateBasic with
  | .panicked => .panicked
  | .error _ => .error .wEmptyParams
  | .ok _ =>
      match root with
      | none => .error .wEmptyParams
      | some r =>
          if r.IsEmpty then .error .wEmptyParams
          else
            match path with
            | none => .error .wEmptyParams
            | some pa =>
                if pa.IsEmpty then .error .wEmptyParams
                else if value.length == 0 then .error .wEmptyParams
                else
                  match pa with
                  | .otherPath _ _ => .error .wNotMerklePath
                  | .merkle mpath =>
                      if proof.Proofs.length == mpath.KeyPaths.length then
                        .error .wChainLength
                      else
                        vmLoop ext proof.Specs proof.Proofs.length
                          mpath.KeyPaths.length mpath.KeyPaths r.GetHash
                          0 proof.Proofs value

/-- nmLoop models the verification loop of MerkleProof.VerifyNonMembership:
at index 0 the nonexistence assertion, Calculate on the Left neighbor and
the non-membership check against that subroot; at later inner indices the
existence assertion, Calculate and the membership check of the running
value against the computed subroot; at the last index (when it is not 0)
the membership check against the trusted root hash without recomputing the
subroot. The current subroot becomes the value of the next iteration. -/
def nmLoop (ext : Ics23) (specs : List (Option ProofSpec)) (nProofs nPaths : Nat)
    (keyPaths : List KeyPath) (rootHash : Bytes) :
    Nat → List (Option CommitmentProof) → Bytes → Bytes → Outcome CommitmentErr Unit
  | _, [], _, _ => .ok ()
  | i, p :: rest, value, subroot =>
      match goIndex keyPaths ((nPaths : Int) - (i : Int) - 1) with
      | none => .panicked
      | some kp =>
          match p with
          | none => .panicked
          | some cp =>
              if i == 0 then
                match cp with
                | .nonexist nep =>
                    match ext.calculate nep.left with
                    | none => .error .wCalculate
                    | some subroot1 =>
                        match goIndex specs (i : Int) with
                        | none => .panicked
                        | some spec =>
                            if ext.verifyNonMember spec subroot1 cp (KeyPathString kp) then
                              nmLoop ext specs nProofs nPaths keyPaths rootHash
                                (i + 1) rest subroot1 subroot1
                            else .error .wInvalidForPath
                | _ => .error .wNotNonexist
              else if i != nProofs - 1 then
                match cp with
                | .exist ep =>
                    match ext.calculate ep with
                    | none => .error .wCalculate
                    | some subroot1 =>
                        match goIndex specs (i : Int) with
                        | none => .panicked
                        | some spec =>
                            if ext.verifyMember spec subroot1 cp (KeyPathString kp) value then
                              nmLoop ext specs nProofs nPaths keyPaths rootHash
                                (i + 1) rest subroot1 subroot1
                            else .error .wInvalidForPath
                | _ => .error .wNotExist
              else
                match goIndex specs (i : Int) with
                | none => .panicked
                | some spec =>
                    if ext.verifyMember spec rootHash cp (KeyPathString kp) value then
                      nmLoop ext specs nProofs nPaths keyPaths rootHash
                        (i + 1) rest subroot subroot
                    else .error .wInvalidForPath

/-- MerkleProof.VerifyNonMembership from merkle.go: the same precondition
chain as VerifyMembership without the value argument, the MerklePath type
assertion, the chain-length guard that rejects when the proof count equals
the key path count, then the loop with value and subroot starting nil. -/
def MerkleProof.VerifyNonMembership (ext : Ics23) (proof : MerkleProof)
    (root : Option MerkleRoot) (path : Option ExPath) :
    Outcome CommitmentErr Unit :=
  match proof.ValidateBasic with
  | .panicked => .panicked
  | .error _ => .error .wEmptyParams
  | .ok _ =>
      match root with
      | none => .error .wEmptyParams
      | some r =>
          if r.IsEmpty then .error .wEmptyParams
          else
            match path with
            | none => .error .wEmptyParams
            | some pa =>
                if pa.IsEmpty then .error .wEmptyParams
                else
                  match pa with
                  | .otherPath _ _ => .error .wNotMerklePath
                  | .merkle mpath =>
                      if proof.Proofs.length == mpath.KeyPaths.length then
                        .error .wChainLength
                      else
                        nmLoop ext proof.Specs proof.Proofs.length
                          mpath.KeyPaths.length mpath.KeyPaths r.GetHash
                          0 proof.Proofs [] []

/-- PrefixErr models the three error returns of ApplyPrefix: the path
validator error, the empty prefix error, and the not-a-merklepath error. -/
inductive PrefixErr where
  | invalidPath
  | emptyPrefixErr
  | notAMerklePath
deriving DecidableEq

/-- Modelled from the spec: host.DefaultPathValidator from x/ibc/24-host is
not under src. The spec treats it as an external validator enforcing a
well-formed path grammar, failing with InvalidPath on violation, and the
grammar requires at least one identifier segment, so in particular the
empty rendering is rejected. Modelled minimally as accepting exactly the
non-empty renderings. -/
def DefaultPathValidator (s : Bytes) : Bool := !s.isEmpty

/-- ApplyPrefix from merkle.go: validate the rendered path, reject a nil or
empty prefix, assert the MerklePath variant, then prepend the one-segment
prefix path to the existing key paths. The prefix interface value is
modelled by its underlying key prefix bytes, a nil interface being none. -/
def ApplyPrefix (pre : Option Bytes) (path : Option ExPath) : Outcome PrefixErr ExPath :=
  match path with
  | none => .panicked
  | some pa =>
      if !(DefaultPathValidator pa.String) then .error .invalidPath
      else
        match pre with
        | none => .error .emptyPrefixErr
        | some pb =>
            if pb.length == 0 then .error .emptyPrefixErr
            else
              match pa with
              | .otherPath _ _ => .error .notAMerklePath
              | .merkle mpath =>
                  .ok (.merkle ⟨(NewMerklePath [pb]).KeyPaths ++ mpath.KeyPaths⟩)

/-- Modelled from the spec: sdk.Result and sdk.NewError from the SDK types
package are not under src. An error result carries the codespace, the
numeric code and the message; the zero Result is the successful result. -/
structure SdkResult where
  Codespace : Bytes
  Code : Nat
  Log : Bytes
deriving DecidableEq

/-- emptyResult is the zero sdk.Result returned on success. -/
def emptyResult : SdkResult := ⟨[], 0, []⟩

/-- newErrorResult models sdk.NewError(codespace, code, msg).Result(). -/
def newErrorResult (cs : Bytes) (code : Nat) (msg : Bytes) : SdkResult :=
  ⟨cs, code, msg⟩

/-- codespaceIBC is the byte rendering of the string ibc. -/
def codespaceIBC : Bytes := [105, 98, 99]

/-- HandleMsgOpenInit from handler.go, abstracted over the outcome of the
Handshaker OpenInit call: code 100 in codespace ibc on error. -/
def HandleMsgOpenInit (openInitResult : Except Bytes Unit) : SdkResult :=
  match openInitResult with
  | .error e => newErrorResult codespaceIBC 100 e
  | .ok _ => emptyResult

/-- HandleMsgOpenTry from handler.go, abstracted over the outcome of the
Handshaker OpenTry call: code 200 in codespace ibc on error. -/
def HandleMsgOpenTry (openTryResult : Except Bytes Unit) : SdkResult :=
  match openTryResult with
  | .error e => newErrorResult codespaceIBC 200 e
  | .ok _ => emptyResult

/-- HandleMsgOpenAck from handler.go, abstracted over the outcome of the
Handshaker OpenAck call: code 300 in codespace ibc on error. -/
def HandleMsgOpenAck (openAckResult : Except Bytes Unit) : SdkResult :=
  match openAckResult with
  | .error e => newErrorResult codespaceIBC 300 e
  | .ok _ => emptyResult

/-- HandleMsgOpenConfirm from handler.go, abstracted over the outcome of
the Handshaker OpenConfirm call: code 400 in codespace ibc on error. -/
def HandleMsgOpenConfirm (openConfirmResult : Except Bytes Unit) : SdkResult :=
  match openConfirmResult with
  | .error e => newErrorResult codespaceIBC 400 e
  | .ok _ => emptyResult

/-- extAccept is a concrete instance of the external single-tree primitive
used by concrete evaluations: Calculate always returns the hash [1] and
both single-tree verifiers accept everything. -/
def extAccept : Ics23 :=
  ⟨fun _ => some [1], fun _ _ _ _ _ => true, fun _ _ _ _ => true⟩

/-- proofOne is a chained proof with one existence sub-proof and one spec. -/
def proofOne : MerkleProof := ⟨[some (.exist 0)], [some 0]⟩

/-- pathOne is a merkle path with a single one-segment key path. -/
def pathOne : MerklePath := NewMerklePath [[97]]

/-- extPartial is a concrete external primitive whose membership verifier
rejects everything and whose non-membership verifier accepts exactly the
checks made against the hash [0]. -/
def extPartial : Ics23 :=
  ⟨fun _ => some [0], fun _ _ _ _ _ => false, fun _ h _ _ => h == [0]⟩

/-- pathTwo is a merkle path with two one-segment key path levels. -/
def pathTwo : MerklePath := ⟨[[Key.mk [97] .url], [Key.mk [98] .url]]⟩

theorem pathUnescape_eq (s : Bytes) :
    pathUnescape s = if validPercentEncoding s then some (percentDecode s) else none := by
  induction s using pathUnescape.induct with
  | case1 => simp [pathUnescape, validPercentEncoding, percentDecode]
  | case2 h1 h2 rest hhex ih =>
      simp only [pathUnescape, validPercentEncoding, percentDecode, hhex, if_true, ih,
        Bool.true_and]
      by_cases hv : validPercentEncoding rest <;> simp [hv]
  | case3 h1 h2 rest hhex =>
      simp only [pathUnescape, validPercentEncoding, percentDecode]
      rw [if_neg hhex, if_neg]
      intro hcon
      rcases Bool.and_eq_true .. |>.mp hcon with ⟨hcon1, _⟩
      exact hhex hcon1
  | case4 tail htail =>
      match tail, htail with
      | [], _ => simp [pathUnescape, validPercentEncoding]
      | [a], _ => simp [pathUnescape, validPercentEncoding]
      | a :: b :: t, h => exact absurd rfl (h a b t)
  | case5 c rest hpair hne ih =>
      rw [pathUnescape.eq_4 c rest hpair hne, validPercentEncoding.eq_4 c rest hpair hne,
          percentDecode.eq_4 c rest hpair hne, ih]
      by_cases hv : validPercentEncoding rest <;> simp [hv]

theorem goIndex_some {α : Type} (xs : List α) (i : Int) (h0 : 0 ≤ i)
    (hlt : i.toNat < xs.length) :
    goIndex xs i = some (xs.get ⟨i.toNat, hlt⟩) := by
  simp [goIndex, h0, hlt]

theorem goIndex_ne_none {α : Type} (xs : List α) (i : Int) (h0 : 0 ≤ i)
    (hlt : i.toNat < xs.length) :
    goIndex xs i ≠ none := by
  rw [goIndex_some xs i h0 hlt]
  simp

theorem isEmptyScan_no_nil (specs : List (Option ProofSpec))
    (i : Nat) (rest : List (Option CommitmentProof)) :
    isEmptyScan specs i rest = .ok false → ∀ p ∈ rest, p ≠ none := by
  induction i, rest using isEmptyScan.induct specs with
  | case1 i => intro _ p hp; cases hp
  | case2 i p rest hp =>
      intro hscan
      simp [isEmptyScan, hp] at hscan
  | case3 i p rest hp hgi =>
      intro hscan
      simp [isEmptyScan, hp, hgi] at hscan
  | case4 i p rest hp s hgi hs =>
      intro hscan
      simp [isEmptyScan, hp, hgi, hs] at hscan
  | case5 i p rest hp s hgi hs ih =>
      intro hscan q hq
      rcases List.mem_cons.mp hq with rfl | hmem
      · exact fun hcon => hp (by simp [hcon])
      · refine ih ?_ q hmem
        simpa [isEmptyScan, hp, hgi, hs] using hscan

theorem isEmptyScan_no_panic (specs : List (Option ProofSpec))
    (i : Nat) (rest : List (Option CommitmentProof)) :
    i + rest.length ≤ specs.length →
    isEmptyScan specs i rest ≠ .panicked := by
  induction i, rest using isEmptyScan.induct specs with
  | case1 i => intro _; simp [isEmptyScan]
  | case2 i p rest hp => intro _; simp [isEmptyScan, hp]
  | case3 i p rest hp hgi =>
      intro hle
      exfalso
      refine goIndex_ne_none specs (i : Int) (by omega) ?_ hgi
      simp only [List.length_cons] at hle
      simp
      omega
  | case4 i p rest hp s hgi hs =>
      intro _
      simp [isEmptyScan, hp, hgi, hs]
  | case5 i p rest hp s hgi hs ih =>
      intro hle
      simp only [List.length_cons] at hle
      have := ih (by omega)
      simpa [isEmptyScan, hp, hgi, hs] using this

theorem isEmpty_no_panic (proof : MerkleProof)
    (hle : proof.Proofs.length ≤ proof.Specs.length) :
    proof.IsEmpty ≠ .panicked := by
  unfold MerkleProof.IsEmpty
  by_cases h0 : proof.Proofs.length == 0 || proof.Specs.length == 0
  · simp [h0]
  · rw [if_neg h0]
    exact isEmptyScan_no_panic proof.Specs 0 proof.Proofs (by omega)

theorem isEmpty_ok_false (proof : MerkleProof) (h : proof.IsEmpty = .ok false) :
    proof.Proofs ≠ [] ∧ ∀ p ∈ proof.Proofs, p ≠ none := by
  unfold MerkleProof.IsEmpty at h
  by_cases h0 : proof.Proofs.length == 0 || proof.Specs.length == 0
  · rw [if_pos h0] at h; cases h
  · rw [if_neg h0] at h
    refine ⟨?_, isEmptyScan_no_nil proof.Specs 0 proof.Proofs h⟩
    intro hnil
    simp [hnil] at h0

theorem validateBasic_ok (proof : MerkleProof) (h : proof.ValidateBasic = .ok ()) :
    proof.IsEmpty = .ok false ∧ proof.Proofs.length = proof.Specs.length := by
  unfold MerkleProof.ValidateBasic at h
  cases hie : proof.IsEmpty with
  | ok b =>
      rw [hie] at h
      cases b with
      | false =>
          refine ⟨rfl, ?_⟩
          by_cases hlen : proof.Proofs.length == proof.Specs.length
          · simpa using hlen
          · simp [hlen] at h
      | true => simp at h
  | error e => exact e.elim
  | panicked => rw [hie] at h; cases h

theorem validateBasic_no_panic (proof : MerkleProof)
    (hle : proof.Proofs.length ≤ proof.Specs.length) :
    proof.ValidateBasic ≠ .panicked := by
  unfold MerkleProof.ValidateBasic
  cases hie : proof.IsEmpty with
  | ok b => by_cases hb : (b || !(proof.Proofs.length == proof.Specs.length)) <;> simp [hb]
  | error e => exact e.elim
  | panicked => exact absurd hie (isEmpty_no_panic proof hle)

theorem vmLoop_no_panic (ext : Ics23) (specs : List (Option ProofSpec))
    (nProofs nPaths : Nat) (keyPaths : List KeyPath) (rootHash : Bytes)
    (i : Nat) (rest : List (Option CommitmentProof)) (value : Bytes) :
    specs.length = nProofs → keyPaths.length = nPaths → nProofs < nPaths →
    i + rest.length = nProofs → (∀ p ∈ rest, p ≠ none) →
    vmLoop ext specs nProofs nPaths keyPaths rootHash i rest value ≠ .panicked := by
  induction i, rest, value using vmLoop.induct ext specs nProofs nPaths keyPaths rootHash with
  | case1 i value => intro _ _ _ _ _; simp [vmLoop]
  | case2 i p rest value hkp =>
      intro hsp hkpl hlt hlen _
      exfalso
      refine goIndex_ne_none keyPaths _ ?_ ?_ hkp
      · simp only [List.length_cons] at hlen; omega
      · simp only [List.length_cons] at hlen; simp; omega
  | case3 i rest value kp hkp =>
      intro _ _ _ _ hnn
      exact absurd rfl (hnn none (List.mem_cons_self _ _))
  | case4 i rest value kp hkp ep hcalc =>
      intro _ _ _ _ _
      simp [vmLoop, hkp, hcalc]
  | case5 i rest value kp hkp ep subroot hcalc hnel hgs =>
      intro hsp hkpl hlt hlen _
      exfalso
      refine goIndex_ne_none specs _ (by omega) ?_ hgs
      simp only [List.length_cons] at hlen
      simp
      omega
  | case6 i rest value kp hkp ep subroot hcalc hnel s hgs hver ih =>
      intro hsp hkpl hlt hlen hnn
      simp only [List.length_cons] at hlen
      have hrec := ih hsp hkpl hlt (by omega)
        (fun q hq => hnn q (List.mem_cons_of_mem _ hq))
      simpa [vmLoop, hkp, hcalc, hnel, hgs, hver] using hrec
  | case7 i rest value kp hkp ep subroot hcalc hnel s hgs hver =>
      intro _ _ _ _ _
      simp [vmLoop, hkp, hcalc, hnel, hgs, hver]
  | case8 i rest value kp hkp ep subroot hcalc hnel hgs =>
      intro hsp hkpl hlt hlen _
      exfalso
      refine goIndex_ne_none specs _ (by omega) ?_ hgs
      simp only [List.length_cons] at hlen
      simp
      omega
  | case9 i rest value kp hkp ep subroot hcalc hnel s hgs hver ih =>
      intro hsp hkpl hlt hlen hnn
      simp only [List.length_cons] at hlen
      have hrec := ih hsp hkpl hlt (by omega)
        (fun q hq => hnn q (List.mem_cons_of_mem _ hq))
      simpa [vmLoop, hkp, hcalc, hnel, hgs, hver] using hrec
  | case10 i rest value kp hkp ep subroot hcalc hnel s hgs hver =>
      intro _ _ _ _ _
      simp [vmLoop, hkp, hcalc, hnel, hgs, hver]
  | case11 i rest value kp hkp cp hcp =>
      intro _ _ _ _ _
      cases cp with
      | exist ep => exact absurd rfl (hcp ep)
      | nonexist nep => simp [vmLoop, hkp]
      | otherVariant => simp [vmLoop, hkp]

theorem vmLoop_anchor (ext : Ics23) (specs : List (Option ProofSpec))
    (nProofs nPaths : Nat) (keyPaths : List KeyPath) (rootHash : Bytes)
    (hroot : ∀ s p k v, ext.verifyMember s rootHash p k v = false)
    (i : Nat) (rest : List (Option CommitmentProof)) (value : Bytes) :
    rest ≠ [] → i + rest.length = nProofs →
    vmLoop ext specs nProofs nPaths keyPaths rootHash i rest value ≠ .ok () := by
  induction i, rest, value using vmLoop.induct ext specs nProofs nPaths keyPaths rootHash with
  | case1 i value => intro hne _; exact absurd rfl hne
  | case2 i p rest value hkp =>
      intro _ _; simp [vmLoop, hkp]
  | case3 i rest value kp hkp =>
      intro _ _; simp [vmLoop, hkp]
  | case4 i rest value kp hkp ep hcalc =>
      intro _ _; simp [vmLoop, hkp, hcalc]
  | case5 i rest value kp hkp ep subroot hcalc hnel hgs =>
      intro _ _; simp [vmLoop, hkp, hcalc, hnel, hgs]
  | case6 i rest value kp hkp ep subroot hcalc hnel s hgs hver ih =>
      intro _ hlen
      simp only [List.length_cons] at hlen
      cases rest with
      | nil =>
          exfalso
          have hne2 : i ≠ nProofs - 1 := by simpa using hnel
          simp only [List.length_nil] at hlen
          omega
      | cons q t =>
          have hlen2 : i + 1 + (q :: t).length = nProofs := by
            simp only [List.length_cons] at hlen ⊢
            omega
          have hrec := ih (by simp) hlen2
          simpa [vmLoop, hkp, hcalc, hnel, hgs, hver] using hrec
  | case7 i rest value kp hkp ep subroot hcalc hnel s hgs hver =>
      intro _ _; simp [vmLoop, hkp, hcalc, hnel, hgs, hver]
  | case8 i rest value kp hkp ep subroot hcalc hnel hgs =>
      intro _ _; simp [vmLoop, hkp, hcalc, hnel, hgs]
  | case9 i rest value kp hkp ep subroot hcalc hnel s hgs hver ih =>
      intro _ _
      exact absurd hver (by simp [hroot])
  | case10 i rest value kp hkp ep subroot hcalc hnel s hgs hver =>
      intro _ _; simp [vmLoop, hkp, hcalc, hnel, hgs, hver]
  | case11 i rest value kp hkp cp hcp =>
      intro _ _
      cases cp with
      | exist ep => exact absurd rfl (hcp ep)
      | nonexist nep => simp [vmLoop, hkp]
      | otherVariant => simp [vmLoop, hkp]

theorem nmLoop_no_panic (ext : Ics23) (specs : List (Option ProofSpec))
    (nProofs nPaths : Nat) (keyPaths : List KeyPath) (rootHash : Bytes)
    (i : Nat) (rest : List (Option CommitmentProof)) (value subroot : Bytes) :
    specs.length = nProofs → keyPaths.length = nPaths → nProofs < nPaths →
    i + rest.length = nProofs → (∀ p ∈ rest, p ≠ none) →
    nmLoop ext specs nProofs nPaths keyPaths rootHash i rest value subroot ≠ .panicked := by
  induction i, rest, value, subroot using nmLoop.induct ext specs nProofs nPaths keyPaths rootHash with
  | case1 i value subroot => intro _ _ _ _ _; simp [nmLoop]
  | case2 i p rest value subroot hkp =>
      intro hsp hkpl hlt hlen _
      exfalso
      refine goIndex_ne_none keyPaths _ ?_ ?_ hkp
      · simp only [List.length_cons] at hlen; omega
      · simp only [List.length_cons] at hlen; simp; omega
  | case3 i rest value subroot kp hkp =>
      intro _ _ _ _ hnn
      exact absurd rfl (hnn none (List.mem_cons_self _ _))
  | case4 i rest value subroot kp hkp h0 nep hcalc =>
      intro _ _ _ _ _
      simp [nmLoop, hkp, h0, hcalc]
  | case5 i rest value subroot kp hkp h0 nep sr1 hcalc hgs =>
      intro hsp hkpl hlt hlen _
      exfalso
      refine goIndex_ne_none specs _ (by omega) ?_ hgs
      simp only [List.length_cons] at hlen
      simp
      omega
  | case6 i rest value subroot kp hkp h0 nep sr1 hcalc s hgs hver ih =>
      intro hsp hkpl hlt hlen hnn
      simp only [List.length_cons] at hlen
      have hrec := ih hsp hkpl hlt (by omega)
        (fun q hq => hnn q (List.mem_cons_of_mem _ hq))
      simpa [nmLoop, hkp, h0, hcalc, hgs, hver] using hrec
  | case7 i rest value subroot kp hkp h0 nep sr1 hcalc s hgs hver =>
      intro _ _ _ _ _
      simp [nmLoop, hkp, h0, hcalc, hgs, hver]
  | case8 i rest value subroot kp hkp cp h0 hcp =>
      intro _ _ _ _ _
      cases cp with
      | nonexist nep => exact absurd rfl (hcp nep)
      | exist ep => simp [nmLoop, hkp, h0]
      | otherVariant => simp [nmLoop, hkp, h0]
  | case9 i rest value subroot kp hkp h0 hnel ep hcalc =>
      intro _ _ _ _ _
      simp [nmLoop, hkp, h0, hnel, hcalc]
  | case10 i rest value subroot kp hkp h0 hnel ep sr1 hcalc hgs =>
      intro hsp hkpl hlt hlen _
      exfalso
      refine goIndex_ne_none specs _ (by omega) ?_ hgs
      simp only [List.length_cons] at hlen
      simp
      omega
  | case11 i rest value subroot kp hkp h0 hnel ep sr1 hcalc s hgs hver ih =>
      intro hsp hkpl hlt hlen hnn
      simp only [List.length_cons] at hlen
      have hrec := ih hsp hkpl hlt (by omega)
        (fun q hq => hnn q (List.mem_cons_of_mem _ hq))
      simpa [nmLoop, hkp, h0, hnel, hcalc, hgs, hver] using hrec
  | case12 i rest value subroot kp hkp h0 hnel ep sr1 hcalc s hgs hver =>
      intro _ _ _ _ _
      simp [nmLoop, hkp, h0, hnel, hcalc, hgs, hver]
  | case13 i rest value subroot kp hkp cp h0 hnel hcp =>
      intro _ _ _ _ _
      cases cp with
      | exist ep => exact absurd rfl (hcp ep)
      | nonexist nep => simp [nmLoop, hkp, h0, hnel]
      | otherVariant => simp [nmLoop, hkp, h0, hnel]
  | case14 i rest value subroot kp hkp cp h0 hnel hgs =>
      intro hsp hkpl hlt hlen _
      exfalso
      refine goIndex_ne_none specs _ (by omega) ?_ hgs
      simp only [List.length_cons] at hlen
      simp
      omega
  | case15 i rest value subroot kp hkp cp h0 hnel s hgs hver ih =>
      intro hsp hkpl hlt hlen hnn
      simp only [List.length_cons] at hlen
      have hrec := ih hsp hkpl hlt (by omega)
        (fun q hq => hnn q (List.mem_cons_of_mem _ hq))
      simpa [nmLoop, hkp, h0, hnel, hgs, hver] using hrec
  | case16 i rest value subroot kp hkp cp h0 hnel s hgs hver =>
      intro _ _ _ _ _
      simp [nmLoop, hkp, h0, hnel, hgs, hver]

theorem nmLoop_anchor (ext : Ics23) (specs : List (Option ProofSpec))
    (nProofs nPaths : Nat) (keyPaths : List KeyPath) (rootHash : Bytes)
    (hroot : ∀ s p k v, ext.verifyMember s rootHash p k v = false)
    (i : Nat) (rest : List (Option CommitmentProof)) (value subroot : Bytes) :
    rest ≠ [] → i + rest.length = nProofs → (1 ≤ i ∨ 2 ≤ rest.length) →
    nmLoop ext specs nProofs nPaths keyPaths rootHash i rest value subroot ≠ .ok () := by
  induction i, rest, value, subroot using nmLoop.induct ext specs nProofs nPaths keyPaths rootHash with
  | case1 i value subroot => intro hne _ _; exact absurd rfl hne
  | case2 i p rest value subroot hkp =>
      intro _ _ _; simp [nmLoop, hkp]
  | case3 i rest value subroot kp hkp =>
      intro _ _ _; simp [nmLoop, hkp]
  | case4 i rest value subroot kp hkp h0 nep hcalc =>
      intro _ _ _; simp [nmLoop, hkp, h0, hcalc]
  | case5 i rest value subroot kp hkp h0 nep sr1 hcalc hgs =>
      intro _ _ _; simp [nmLoop, hkp, h0, hcalc, hgs]
  | case6 i rest value subroot kp hkp h0 nep sr1 hcalc s hgs hver ih =>
      intro _ hlen hdisj
      have hi0 : i = 0 := by simpa using h0
      simp only [List.length_cons] at hlen
      cases rest with
      | nil =>
          exfalso
          rcases hdisj with h1 | h2
          · omega
          · simp at h2
      | cons q t =>
          have hrec := ih (by simp)
            (by simp only [List.length_cons] at hlen ⊢; omega)
            (Or.inl (by omega))
          simpa [nmLoop, hkp, h0, hcalc, hgs, hver] using hrec
  | case7 i rest value subroot kp hkp h0 nep sr1 hcalc s hgs hver =>
      intro _ _ _; simp [nmLoop, hkp, h0, hcalc, hgs, hver]
  | case8 i rest value subroot kp hkp cp h0 hcp =>
      intro _ _ _
      cases cp with
      | nonexist nep => exact absurd rfl (hcp nep)
      | exist ep => simp [nmLoop, hkp, h0]
      | otherVariant => simp [nmLoop, hkp, h0]
  | case9 i rest value subroot kp hkp h0 hnel ep hcalc =>
      intro _ _ _; simp [nmLoop, hkp, h0, hnel, hcalc]
  | case10 i rest value subroot kp hkp h0 hnel ep sr1 hcalc hgs =>
      intro _ _ _; simp [nmLoop, hkp, h0, hnel, hcalc, hgs]
  | case11 i rest value subroot kp hkp h0 hnel ep sr1 hcalc s hgs hver ih =>
      intro _ hlen _
      simp only [List.length_cons] at hlen
      cases rest with
      | nil =>
          exfalso
          have hne2 : i ≠ nProofs - 1 := by simpa using hnel
          simp only [List.length_nil] at hlen
          omega
      | cons q t =>
          have hrec := ih (by simp)
            (by simp only [List.length_cons] at hlen ⊢; omega)
            (Or.inl (by omega))
          simpa [nmLoop, hkp, h0, hnel, hcalc, hgs, hver] using hrec
  | case12 i rest value subroot kp hkp h0 hnel ep sr1 hcalc s hgs hver =>
      intro _ _ _; simp [nmLoop, hkp, h0, hnel, hcalc, hgs, hver]
  | case13 i rest value subroot kp hkp cp h0 hnel hcp =>
      intro _ _ _
      cases cp with
      | exist ep => exact absurd rfl (hcp ep)
      | nonexist nep => simp [nmLoop, hkp, h0, hnel]
      | otherVariant => simp [nmLoop, hkp, h0, hnel]
  | case14 i rest value subroot kp hkp cp h0 hnel hgs =>
      intro _ _ _; simp [nmLoop, hkp, h0, hnel, hgs]
  | case15 i rest value subroot kp hkp cp h0 hnel s hgs hver ih =>
      intro _ _ _
      exact absurd hver (by simp [hroot])
  | case16 i rest value subroot kp hkp cp h0 hnel s hgs hver =>
      intro _ _ _; simp [nmLoop, hkp, h0, hnel, hgs, hver]

/-- C1: evaluation of the code at the failing input. A valid one-level
chained membership proof over a matching one-level path, with an external
primitive that accepts everything and a Calculate that returns exactly the
trusted root hash, is rejected by VerifyMembership with the chain-length
error: the guard fires precisely when the proof count equals the key path
count, although its own message text says it rejects counts that are not
the same, so an N-over-N valid proof can never verify. -/
theorem c1_failing_input_eval :
    MerkleProof.VerifyMembership extAccept proofOne (some ⟨[1]⟩)
      (some (.merkle pathOne)) [5] = .error .wChainLength ∧
    proofOne.Proofs.length = pathOne.KeyPaths.length := by
  constructor <;> decide

/-- C8 counterexample: a chained proof whose Proofs list is longer than its
Specs list, with no nil entries, makes the positional scan of IsEmpty index
Specs out of bounds, so IsEmpty and ValidateBasic panic rather than
evaluate to a result. -/
theorem c8_counterexample :
    MerkleProof.IsEmpty ⟨[some (.exist 0), some (.exist 0)], [some 0]⟩ = .panicked ∧
    MerkleProof.ValidateBasic ⟨[some (.exist 0), some (.exist 0)], [some 0]⟩ = .panicked := by
  constructor <;> decide

/-- C8 amended: for every MerkleProof whose Proofs list is not longer than
its Specs list, IsEmpty and ValidateBasic evaluate to a result without any
out-of-bounds list access. -/
theorem c8_amended (proof : MerkleProof)
    (hle : proof.Proofs.length ≤ proof.Specs.length) :
    proof.IsEmpty ≠ .panicked ∧ proof.ValidateBasic ≠ .panicked :=
  ⟨isEmpty_no_panic proof hle, validateBasic_no_panic proof hle⟩

/-- C8 witness: the amended statement applied to a concrete proof. -/
theorem c8_witness :
    MerkleProof.IsEmpty ⟨[some (.exist 0)], [some 0]⟩ ≠ .panicked ∧
    MerkleProof.ValidateBasic ⟨[some (.exist 0)], [some 0]⟩ ≠ .panicked :=
  c8_amended ⟨[some (.exist 0)], [some 0]⟩ (by decide)

/-- C9 counterexample: an input that passes every precondition check with
two sub-proofs over a single key path level (the inverted length guard
admits it since two differs from one) drives the reverse key path index
below zero at the second iteration, so VerifyMembership panics on an
out-of-bounds access instead of staying within bounds. -/
theorem c9_counterexample :
    MerkleProof.VerifyMembership extAccept
      ⟨[some (.exist 0), some (.exist 0)], [some 0, some 0]⟩
      (some ⟨[1]⟩) (some (.merkle pathOne)) [5] = .panicked := by
  decide

/-- C9 amended: when the proof passes ValidateBasic and the proof list is
strictly shorter than the key path list, every list access in both
verification loops stays within bounds: neither entry point can panic, for
any external primitive, root and value. -/
theorem c9_amended (ext : Ics23) (proof : MerkleProof) (root : MerkleRoot)
    (mp : MerklePath) (value : Bytes)
    (hvb : proof.ValidateBasic = .ok ())
    (hlt : proof.Proofs.length < mp.KeyPaths.length) :
    MerkleProof.VerifyMembership ext proof (some root) (some (.merkle mp)) value ≠ .panicked ∧
    MerkleProof.VerifyNonMembership ext proof (some root) (some (.merkle mp)) ≠ .panicked := by
  obtain ⟨hie, hlen⟩ := validateBasic_ok proof hvb
  obtain ⟨hne, hnn⟩ := isEmpty_ok_false proof hie
  have hguard : (proof.Proofs.length == mp.KeyPaths.length) = false := by
    simp only [beq_eq_false_iff_ne, ne_eq]
    omega
  constructor
  · simp only [MerkleProof.VerifyMembership, hvb]
    cases hre : root.IsEmpty with
    | true => simp
    | false =>
        simp only [ExPath.IsEmpty]
        have hpe : mp.IsEmpty = false := by
          simp only [MerklePath.IsEmpty, beq_eq_false_iff_ne, ne_eq]
          omega
        simp only [hpe, Bool.false_eq_true, if_false]
        by_cases hv0 : value.length == 0
        · simp [hv0]
        · simp only [hv0, Bool.false_eq_true, if_false, hguard]
          exact vmLoop_no_panic ext proof.Specs proof.Proofs.length
            mp.KeyPaths.length mp.KeyPaths root.GetHash 0 proof.Proofs value
            hlen.symm rfl hlt (by omega) hnn
  · simp only [MerkleProof.VerifyNonMembership, hvb]
    cases hre : root.IsEmpty with
    | true => simp
    | false =>
        simp only [ExPath.IsEmpty]
        have hpe : mp.IsEmpty = false := by
          simp only [MerklePath.IsEmpty, beq_eq_false_iff_ne, ne_eq]
          omega
        simp only [hpe, Bool.false_eq_true, if_false, hguard]
        exact nmLoop_no_panic ext proof.Specs proof.Proofs.length
          mp.KeyPaths.length mp.KeyPaths root.GetHash 0 proof.Proofs [] []
          hlen.symm rfl hlt (by omega) hnn

/-- C9 witness: the amended statement applied to a one-proof chain over a
two-level path, which every precondition admits. -/
theorem c9_witness :
    MerkleProof.VerifyMembership extAccept proofOne (some ⟨[1]⟩)
      (some (.merkle ⟨[[Key.mk [97] .url], [Key.mk [98] .url]]⟩)) [5] ≠ .panicked ∧
    MerkleProof.VerifyNonMembership extAccept proofOne (some ⟨[1]⟩)
      (some (.merkle ⟨[[Key.mk [97] .url], [Key.mk [98] .url]]⟩)) ≠ .panicked :=
  c9_amended extAccept proofOne ⟨[1]⟩ ⟨[[Key.mk [97] .url], [Key.mk [98] .url]]⟩ [5]
    (by decide) (by decide)

/-- C2 counterexample: the root is nil, one of the listed precondition
violations, yet VerifyMembership panics instead of failing with the
InvalidProof error, because the ValidateBasic call evaluated first runs the
IsEmpty scan out of bounds on a proof whose Proofs list is longer than its
Specs list. -/
theorem c2_counterexample :
    MerkleProof.VerifyMembership extAccept
      ⟨[some (.exist 0), some (.exist 0)], [some 0]⟩ none
      (some (.merkle pathOne)) [5] = .panicked := by
  decide

/-- C2 amended: provided the ValidateBasic call completes without a panic,
any of the listed precondition violations makes VerifyMembership fail with
the InvalidProof empty-params error, for every external primitive, before
any cryptographic work; and when ValidateBasic succeeds, the root is
non-empty, the path is a non-empty non-Merkle variant and the value is
non-empty, it fails with the InvalidProof not-a-merkle-path error. -/
theorem c2_amended :
    (∀ (ext : Ics23) (proof : MerkleProof) (root : Option MerkleRoot)
        (path : Option ExPath) (value : Bytes),
      proof.ValidateBasic ≠ .panicked →
      ((∃ e, proof.ValidateBasic = .error e) ∨ root = none ∨
        (∃ r, root = some r ∧ r.IsEmpty = true) ∨ path = none ∨
        (∃ pa, path = some pa ∧ pa.IsEmpty = true) ∨ value.length = 0) →
      MerkleProof.VerifyMembership ext proof root path value = .error .wEmptyParams) ∧
    (∀ (ext : Ics23) (proof : MerkleProof) (r : MerkleRoot) (b : Bool)
        (s : Bytes) (value : Bytes),
      proof.ValidateBasic = .ok () → r.IsEmpty = false → b = false →
      value.length ≠ 0 →
      MerkleProof.VerifyMembership ext proof (some r) (some (.otherPath b s)) value
        = .error .wNotMerklePath) := by
  constructor
  · intro ext proof root path value hnp hdisj
    cases hvv : proof.ValidateBasic with
    | panicked => exact absurd hvv hnp
    | error e => simp [MerkleProof.VerifyMembership, hvv]
    | ok u =>
        cases u
        rcases hdisj with ⟨e, he⟩ | rfl | ⟨r, rfl, hre⟩ | rfl | ⟨pa, rfl, hpe⟩ | hv0
        · rw [hvv] at he; cases he
        · simp [MerkleProof.VerifyMembership, hvv]
        · simp [MerkleProof.VerifyMembership, hvv, hre]
        · simp only [MerkleProof.VerifyMembership, hvv]
          cases root with
          | none => rfl
          | some r => by_cases hre : r.IsEmpty <;> simp [hre]
        · simp only [MerkleProof.VerifyMembership, hvv]
          cases root with
          | none => rfl
          | some r =>
              by_cases hre : r.IsEmpty
              · simp [hre]
              · simp [hre, hpe]
        · simp only [MerkleProof.VerifyMembership, hvv]
          cases root with
          | none => rfl
          | some r =>
              by_cases hre : r.IsEmpty
              · simp [hre]
              · cases path with
                | none => simp [hre]
                | some pa =>
                    by_cases hpe : pa.IsEmpty
                    · simp [hre, hpe]
                    · simp [hre, hpe, hv0]
  · intro ext proof r b s value hvb hre hb hv0
    subst hb
    simp [MerkleProof.VerifyMembership, hvb, hre, ExPath.IsEmpty, hv0]

/-- C2 witness: the amended statement applied twice, to a nil root and to a
non-Merkle path variant. -/
theorem c2_witness :
    MerkleProof.VerifyMembership extAccept proofOne none (some (.merkle pathOne)) [5]
      = .error .wEmptyParams ∧
    MerkleProof.VerifyMembership extAccept proofOne (some ⟨[1]⟩)
      (some (.otherPath false [97])) [5] = .error .wNotMerklePath :=
  ⟨c2_amended.1 extAccept proofOne none (some (.merkle pathOne)) [5] (by decide)
      (Or.inr (Or.inl rfl)),
   c2_amended.2 extAccept proofOne ⟨[1]⟩ false [97] [5] (by decide) (by decide) rfl
      (by decide)⟩

/-- C4 counterexample: a chained proof whose sub-proof list length differs
from its spec list length (two against one, no nil entries) does not make
ValidateBasic fail with InvalidProof: ValidateBasic panics, because the
IsEmpty scan it runs first indexes the shorter Specs list out of bounds
before the length comparison is ever reached. -/
theorem c4_counterexample :
    MerkleProof.Proofs ⟨[some (.exist 0), some (.exist 0)], [some 0]⟩ ≠ [] ∧
    (MerkleProof.Proofs ⟨[some (.exist 0), some (.exist 0)], [some 0]⟩).length ≠
      (MerkleProof.Specs ⟨[some (.exist 0), some (.exist 0)], [some 0]⟩).length ∧
    MerkleProof.ValidateBasic ⟨[some (.exist 0), some (.exist 0)], [some 0]⟩
      = .panicked := by
  refine ⟨by decide, by decide, by decide⟩

/-- C4 amended: provided the IsEmpty scan completes without a panic, a
length mismatch between sub-proof list and spec list makes ValidateBasic
fail with InvalidProof, and both verification entry points reject with the
InvalidProof empty-params error for every external primitive, hence before
any cryptographic work; moreover whenever IsEmpty evaluates to true,
ValidateBasic fails with InvalidProof. -/
theorem c4_amended :
    (∀ (proof : MerkleProof), proof.IsEmpty ≠ .panicked →
      proof.Proofs.length ≠ proof.Specs.length →
      proof.ValidateBasic = .error .invalidProof ∧
      (∀ (ext : Ics23) (root : Option MerkleRoot) (path : Option ExPath) (value : Bytes),
        MerkleProof.VerifyMembership ext proof root path value = .error .wEmptyParams ∧
        MerkleProof.VerifyNonMembership ext proof root path = .error .wEmptyParams)) ∧
    (∀ (proof : MerkleProof), proof.IsEmpty = .ok true →
      proof.ValidateBasic = .error .invalidProof) := by
  constructor
  · intro proof hnp hlen
    have hvb : proof.ValidateBasic = .error .invalidProof := by
      unfold MerkleProof.ValidateBasic
      cases hie : proof.IsEmpty with
      | panicked => exact absurd hie hnp
      | error e => exact e.elim
      | ok b =>
          have : (proof.Proofs.length == proof.Specs.length) = false := by
            simp only [beq_eq_false_iff_ne, ne_eq]
            exact hlen
          simp [this]
    refine ⟨hvb, fun ext root path value => ?_⟩
    constructor
    · simp [MerkleProof.VerifyMembership, hvb]
    · simp [MerkleProof.VerifyNonMembership, hvb]
  · intro proof hie
    unfold MerkleProof.ValidateBasic
    rw [hie]
    simp

/-- C4 witness: the amended statement applied to a one-proof two-spec
chain, whose scan completes, and to a proof with a nil entry. -/
theorem c4_witness :
    MerkleProof.ValidateBasic ⟨[some (.exist 0)], [some 0, some 0]⟩
      = .error .invalidProof ∧
    MerkleProof.VerifyMembership extAccept ⟨[some (.exist 0)], [some 0, some 0]⟩
      (some ⟨[1]⟩) (some (.merkle pathOne)) [5] = .error .wEmptyParams ∧
    MerkleProof.ValidateBasic ⟨[none], [some 0]⟩ = .error .invalidProof :=
  ⟨(c4_amended.1 ⟨[some (.exist 0)], [some 0, some 0]⟩ (by decide) (by decide)).1,
   ((c4_amended.1 ⟨[some (.exist 0)], [some 0, some 0]⟩ (by decide) (by decide)).2
      extAccept (some ⟨[1]⟩) (some (.merkle pathOne)) [5]).1,
   c4_amended.2 ⟨[none], [some 0]⟩ (by decide)⟩

/-- C5 counterexample: a chain whose level-0 sub-proof is the Existence
variant does not always fail with InvalidProof: with two sub-proofs and a
single spec the IsEmpty scan inside the precondition check panics, so
VerifyNonMembership panics instead of returning the InvalidProof error. -/
theorem c5_counterexample :
    (MerkleProof.Proofs ⟨[some (.exist 0), some (.exist 0)], [some 0]⟩).head? =
      some (some (.exist 0)) ∧
    MerkleProof.VerifyNonMembership extAccept
      ⟨[some (.exist 0), some (.exist 0)], [some 0]⟩ (some ⟨[1]⟩)
      (some (.merkle pathOne)) = .panicked := by
  refine ⟨by decide, by decide⟩

theorem nmLoop_first_not_nonexist (ext : Ics23) (specs : List (Option ProofSpec))
    (nProofs nPaths : Nat) (keyPaths : List KeyPath) (rootHash : Bytes)
    (ep : ExistenceProof) (t : List (Option CommitmentProof)) (value subroot : Bytes)
    (kp : KeyPath) (hkp : goIndex keyPaths ((nPaths : Int) - 1) = some kp) :
    nmLoop ext specs nProofs nPaths keyPaths rootHash 0 (some (.exist ep) :: t) value subroot
      = .error .wNotNonexist := by
  simp [nmLoop, hkp]

/-- C5 amended: provided the IsEmpty scan completes without a panic, a
chain whose level-0 sub-proof is the Existence variant always makes
VerifyNonMembership fail with an InvalidProof error (every constructor of
CommitmentErr models ErrInvalidProof or a wrap of it), for every external
primitive, root and path. -/
theorem c5_amended (ext : Ics23) (proof : MerkleProof) (root : Option MerkleRoot)
    (path : Option ExPath) (ep : ExistenceProof)
    (hnp : proof.IsEmpty ≠ .panicked)
    (hhead : proof.Proofs.head? = some (some (.exist ep))) :
    ∃ e, MerkleProof.VerifyNonMembership ext proof root path = .error e := by
  cases hvb : proof.ValidateBasic with
  | panicked =>
      exfalso
      unfold MerkleProof.ValidateBasic at hvb
      cases hie : proof.IsEmpty with
      | panicked => exact hnp hie
      | error e => exact e.elim
      | ok b =>
          rw [hie] at hvb
          by_cases hb : (b || !(proof.Proofs.length == proof.Specs.length)) <;>
            simp [hb] at hvb
  | error e =>
      exact ⟨.wEmptyParams, by simp [MerkleProof.VerifyNonMembership, hvb]⟩
  | ok u =>
      cases u
      cases root with
      | none => exact ⟨.wEmptyParams, by simp [MerkleProof.VerifyNonMembership, hvb]⟩
      | some r =>
          by_cases hre : r.IsEmpty
          · exact ⟨.wEmptyParams, by simp [MerkleProof.VerifyNonMembership, hvb, hre]⟩
          · cases path with
            | none =>
                exact ⟨.wEmptyParams, by simp [MerkleProof.VerifyNonMembership, hvb, hre]⟩
            | some pa =>
                by_cases hpe : pa.IsEmpty
                · exact ⟨.wEmptyParams,
                    by simp [MerkleProof.VerifyNonMembership, hvb, hre, hpe]⟩
                · cases pa with
                  | otherPath b s =>
                      exact ⟨.wNotMerklePath,
                        by simp [MerkleProof.VerifyNonMembership, hvb, hre, hpe]⟩
                  | merkle mpath =>
                      by_cases hguard : proof.Proofs.length == mpath.KeyPaths.length
                      · exact ⟨.wChainLength,
                          by simp [MerkleProof.VerifyNonMembership, hvb, hre, hpe, hguard]⟩
                      · obtain ⟨q, t, hqt⟩ : ∃ q t, proof.Proofs = q :: t := by
                          cases hp : proof.Proofs with
                          | nil => rw [hp] at hhead; cases hhead
                          | cons q t => exact ⟨q, t, rfl⟩
                        have hq : q = some (.exist ep) := by
                          rw [hqt] at hhead
                          simpa using hhead
                        subst hq
                        have hn1 : 1 ≤ mpath.KeyPaths.length := by
                          rcases hmp : mpath.KeyPaths with _ | ⟨k0, ks⟩
                          · exact absurd (by simp [ExPath.IsEmpty, MerklePath.IsEmpty, hmp]) hpe
                          · simp [hmp]
                        have hkp := goIndex_some mpath.KeyPaths
                          ((mpath.KeyPaths.length : Int) - 1)
                          (by omega) (by simp; omega)
                        refine ⟨.wNotNonexist, ?_⟩
                        simp only [MerkleProof.VerifyNonMembership, hvb]
                        have hre2 : r.IsEmpty = false := by simpa using hre
                        have hpe2 : mpath.IsEmpty = false := by
                          simpa [ExPath.IsEmpty] using hpe
                        have hg2 : (proof.Proofs.length == mpath.KeyPaths.length) = false := by
                          simpa using hguard
                        simp only [hre2, Bool.false_eq_true, if_false, ExPath.IsEmpty,
                          hpe2, hg2]
                        rw [hqt]
                        exact nmLoop_first_not_nonexist ext proof.Specs proof.Proofs.length
                          mpath.KeyPaths.length mpath.KeyPaths r.GetHash ep t [] [] _ hkp

/-- C5 witness: the amended statement applied to a one-proof chain whose
only sub-proof is an existence proof. -/
theorem c5_witness :
    ∃ e, MerkleProof.VerifyNonMembership extAccept proofOne (some ⟨[1]⟩)
      (some (.merkle pathOne)) = .error e :=
  c5_amended extAccept proofOne (some ⟨[1]⟩) (some (.merkle pathOne)) 0
    (by decide) (by decide)

/-- C3 counterexample: a single-level non-membership chain succeeds while
no check against the caller-supplied trusted root hash was performed: the
level-0 check runs against the subroot [0] computed from the Left neighbor,
which differs from the trusted root hash [1]; the same check evaluated at
the trusted root hash is false and the membership verifier rejects
everything, yet VerifyNonMembership returns success. -/
theorem c3_counterexample :
    MerkleProof.VerifyNonMembership extPartial ⟨[some (.nonexist ⟨5⟩)], [some 0]⟩
      (some ⟨[1]⟩) (some (.merkle pathTwo)) = .ok () ∧
    extPartial.calculate 5 = some [0] ∧
    ([0] : Bytes) ≠ MerkleRoot.GetHash ⟨[1]⟩ ∧
    extPartial.verifyNonMember (some 0) (MerkleRoot.GetHash ⟨[1]⟩)
      (.nonexist ⟨5⟩) (KeyPathString [Key.mk [98] .url]) = false ∧
    extPartial.verifyMember (some 0) (MerkleRoot.GetHash ⟨[1]⟩)
      (.nonexist ⟨5⟩) (KeyPathString [Key.mk [98] .url]) [] = false := by
  refine ⟨by decide, by decide, by decide, by decide, by decide⟩

/-- C3 amended: success is anchored to the caller-supplied trusted root as
the claim states for VerifyMembership, and for VerifyNonMembership when
the chain has at least two levels: whenever the external membership
verifier rejects every query made against the trusted root hash, neither
entry point can return success. A single-level non-membership chain is the
exception the counterexample exhibits: its only check runs against the
subroot computed from the proof itself. -/
theorem c3_amended :
    (∀ (ext : Ics23) (proof : MerkleProof) (root : MerkleRoot)
        (path : Option ExPath) (value : Bytes),
      (∀ s p k v, ext.verifyMember s root.GetHash p k v = false) →
      MerkleProof.VerifyMembership ext proof (some root) path value ≠ .ok ()) ∧
    (∀ (ext : Ics23) (proof : MerkleProof) (root : MerkleRoot)
        (path : Option ExPath),
      2 ≤ proof.Proofs.length →
      (∀ s p k v, ext.verifyMember s root.GetHash p k v = false) →
      MerkleProof.VerifyNonMembership ext proof (some root) path ≠ .ok ()) := by
  constructor
  · intro ext proof root path value hroot
    cases hvb : proof.ValidateBasic with
    | panicked => simp [MerkleProof.VerifyMembership, hvb]
    | error e => simp [MerkleProof.VerifyMembership, hvb]
    | ok u =>
        cases u
        obtain ⟨hie, hlen⟩ := validateBasic_ok proof hvb
        obtain ⟨hne, hnn⟩ := isEmpty_ok_false proof hie
        by_cases hre : root.IsEmpty
        · simp [MerkleProof.VerifyMembership, hvb, hre]
        · cases path with
          | none => simp [MerkleProof.VerifyMembership, hvb, hre]
          | some pa =>
              by_cases hpe : pa.IsEmpty
              · simp [MerkleProof.VerifyMembership, hvb, hre, hpe]
              · cases pa with
                | otherPath b s =>
                    simp [MerkleProof.VerifyMembership, hvb, hre, hpe]
                    split <;> simp
                | merkle mpath =>
                    by_cases hguard : proof.Proofs.length == mpath.KeyPaths.length
                    · simp [MerkleProof.VerifyMembership, hvb, hre, hpe, hguard]
                      split <;> simp
                    · have hre2 : root.IsEmpty = false := by simpa using hre
                      have hpe2 : mpath.IsEmpty = false := by
                        simpa [ExPath.IsEmpty] using hpe
                      have hg2 : (proof.Proofs.length == mpath.KeyPaths.length)
                          = false := by simpa using hguard
                      simp only [MerkleProof.VerifyMembership, hvb, hre2,
                        Bool.false_eq_true, if_false, ExPath.IsEmpty, hpe2, hg2]
                      by_cases hv0 : value.length == 0
                      · simp [hv0]
                      · simp only [hv0, Bool.false_eq_true, if_false]
                        exact vmLoop_anchor ext proof.Specs proof.Proofs.length
                          mpath.KeyPaths.length mpath.KeyPaths root.GetHash hroot
                          0 proof.Proofs value hne (by omega)
  · intro ext proof root path h2 hroot
    cases hvb : proof.ValidateBasic with
    | panicked => simp [MerkleProof.VerifyNonMembership, hvb]
    | error e => simp [MerkleProof.VerifyNonMembership, hvb]
    | ok u =>
        cases u
        obtain ⟨hie, hlen⟩ := validateBasic_ok proof hvb
        obtain ⟨hne, hnn⟩ := isEmpty_ok_false proof hie
        by_cases hre : root.IsEmpty
        · simp [MerkleProof.VerifyNonMembership, hvb, hre]
        · cases path with
          | none => simp [MerkleProof.VerifyNonMembership, hvb, hre]
          | some pa =>
              by_cases hpe : pa.IsEmpty
              · simp [MerkleProof.VerifyNonMembership, hvb, hre, hpe]
              · cases pa with
                | otherPath b s =>
                    simp [MerkleProof.VerifyNonMembership, hvb, hre, hpe]
                | merkle mpath =>
                    by_cases hguard : proof.Proofs.length == mpath.KeyPaths.length
                    · simp [MerkleProof.VerifyNonMembership, hvb, hre, hpe, hguard]
                    · have hre2 : root.IsEmpty = false := by simpa using hre
                      have hpe2 : mpath.IsEmpty = false := by
                        simpa [ExPath.IsEmpty] using hpe
                      have hg2 : (proof.Proofs.length == mpath.KeyPaths.length)
                          = false := by simpa using hguard
                      simp only [MerkleProof.VerifyNonMembership, hvb, hre2,
                        Bool.false_eq_true, if_false, ExPath.IsEmpty, hpe2, hg2]
                      exact nmLoop_anchor ext proof.Specs proof.Proofs.length
                        mpath.KeyPaths.length mpath.KeyPaths root.GetHash hroot
                        0 proof.Proofs [] [] hne (by omega) (Or.inr h2)

/-- C3 witness: the amended statement applied to concrete inputs with an
external primitive whose membership verifier rejects everything. -/
theorem c3_witness :
    MerkleProof.VerifyMembership extPartial proofOne (some ⟨[1]⟩)
      (some (.merkle pathTwo)) [5] ≠ .ok () ∧
    MerkleProof.VerifyNonMembership extPartial
      ⟨[some (.nonexist ⟨5⟩), some (.exist 0)], [some 0, some 0]⟩ (some ⟨[1]⟩)
      (some (.merkle pathOne)) ≠ .ok () :=
  ⟨c3_amended.1 extPartial proofOne ⟨[1]⟩ (some (.merkle pathTwo)) [5]
      (fun s p k v => rfl),
   c3_amended.2 extPartial ⟨[some (.nonexist ⟨5⟩), some (.exist 0)], [some 0, some 0]⟩
      ⟨[1]⟩ (some (.merkle pathOne)) (by decide) (fun s p k v => rfl)⟩

/-- C6 counterexample: with a nil prefix and an empty merkle path, whose
rendering is the empty string, ApplyPrefix fails with the path validator
error InvalidPath, not with EmptyPrefix: the validator runs before the
prefix emptiness check. -/
theorem c6_counterexample :
    ApplyPrefix none (some (.merkle ⟨[]⟩)) = .error .invalidPath ∧
    PrefixErr.invalidPath ≠ PrefixErr.emptyPrefixErr := by
  refine ⟨by decide, by decide⟩

/-- C6 amended: for every path argument whose rendered string the external
path validator accepts, ApplyPrefix with a nil or empty prefix fails with
the EmptyPrefix error. -/
theorem c6_amended (pre : Option Bytes) (pa : ExPath)
    (hval : DefaultPathValidator pa.String = true)
    (hpre : pre = none ∨ pre = some []) :
    ApplyPrefix pre (some pa) = .error .emptyPrefixErr := by
  have hv2 : (!(DefaultPathValidator pa.String)) = false := by simp [hval]
  rcases hpre with rfl | rfl
  · simp [ApplyPrefix, hv2]
  · simp [ApplyPrefix, hv2]

/-- C6 witness: the amended statement applied to a nil prefix and a
one-segment path, whose rendering is accepted by the validator. -/
theorem c6_witness :
    ApplyPrefix none (some (.merkle pathOne)) = .error .emptyPrefixErr :=
  c6_amended none (.merkle pathOne) (by decide) (Or.inl rfl)

/-- C7: Pretty returns exactly the percent-decoded form of the rendered
String and fails fatally (panics) exactly when that rendering is not valid
percent-encoding, for every merkle path. -/
theorem c7_pretty (mp : MerklePath) :
    (validPercentEncoding (MerklePath.String mp) = true →
      MerklePath.Pretty mp = .ok (percentDecode (MerklePath.String mp))) ∧
    (validPercentEncoding (MerklePath.String mp) = false →
      MerklePath.Pretty mp = .panicked) := by
  constructor <;> intro h <;> simp [MerklePath.Pretty, pathUnescape_eq, h]

/-- C7 witness: the statement applied to a concrete path with an escaped
segment: the rendering of the one-byte segment [32] is the three-byte
escape percent-2-0 after the leading slash, and Pretty decodes it back. -/
theorem c7_witness :
    validPercentEncoding (MerklePath.String (NewMerklePath [[32]])) = true ∧
    MerklePath.Pretty (NewMerklePath [[32]]) =
      .ok (percentDecode (MerklePath.String (NewMerklePath [[32]]))) ∧
    MerklePath.Pretty (NewMerklePath [[32]]) = .ok [47, 32] :=
  ⟨by decide, (c7_pretty (NewMerklePath [[32]])).1 (by decide), by decide⟩

/-- C10: each connection handshake handler returns the empty successful
Result when the underlying handshaker operation succeeds, and otherwise an
error Result in codespace ibc with the fixed code of its message type: 100
for OpenInit, 200 for OpenTry, 300 for OpenAck, 400 for OpenConfirm. -/
theorem c10_handlers :
    HandleMsgOpenInit (.ok ()) = emptyResult ∧
    HandleMsgOpenTry (.ok ()) = emptyResult ∧
    HandleMsgOpenAck (.ok ()) = emptyResult ∧
    HandleMsgOpenConfirm (.ok ()) = emptyResult ∧
    (∀ e, HandleMsgOpenInit (.error e) = newErrorResult codespaceIBC 100 e) ∧
    (∀ e, HandleMsgOpenTry (.error e) = newErrorResult codespaceIBC 200 e) ∧
    (∀ e, HandleMsgOpenAck (.error e) = newErrorResult codespaceIBC 300 e) ∧
    (∀ e, HandleMsgOpenConfirm (.error e) = newErrorResult codespaceIBC 400 e) :=
  ⟨rfl, rfl, rfl, rfl, fun _ => rfl, fun _ => rfl, fun _ => rfl, fun _ => rfl⟩
